import Mathlib

/-!
Verification of the test-selection and execution-reporting engine of the
wollok-ts-cli repository (subcommand `test`, files `src/commands/test.ts`
and `src/utils.ts`).

JavaScript strings are modelled as `List Char`; the handful of JS string
primitives the code uses (`replaceAll`, `split`, `join`, `includes`,
`indexOf`, `slice`, `repeat`) are given executable definitions with the
same semantics.  The wollok-ts `Environment` (an external collaborator) is
modelled as a forest of nodes, each carrying an id (standing for JS object
identity), a name, a fully-qualified name, and a kind (test with an
`isOnly` flag, container entity, or other node).
-/

/-! ## JS string primitives over `List Char` -/

/-- JS `String.prototype.replaceAll(pat, rep)` for a non-empty pattern:
left-to-right, non-overlapping.  Structural recursion on a fuel argument
(initialised to the string length, which always suffices) so that the
kernel can evaluate it.  An empty pattern never occurs in the modelled
code. -/
def replaceAllFuel (pat rep : List Char) : Nat → List Char → List Char
  | 0, l => l
  | _ + 1, [] => []
  | fuel + 1, c :: rest =>
    if pat.isPrefixOf (c :: rest) && !pat.isEmpty then
      rep ++ replaceAllFuel pat rep fuel ((c :: rest).drop pat.length)
    else
      c :: replaceAllFuel pat rep fuel rest

/-- JS `s.replaceAll(pat, rep)` over char lists. -/
def replaceAllL (pat rep l : List Char) : List Char :=
  replaceAllFuel pat rep l.length l

/-- JS `String.prototype.split(sep)` for a single-character separator:
`"".split(sep)` is `[""]`, and a trailing separator yields a trailing
empty group. -/
def splitOnChar (sep : Char) : List Char → List (List Char)
  | [] => [[]]
  | c :: rest =>
    let r := splitOnChar sep rest
    if c = sep then [] :: r
    else
      match r with
      | [] => [[c]]
      | g :: gs => (c :: g) :: gs

/-- JS `Array.prototype.join(sep)` over char-list pieces. -/
def joinWith (sep : List Char) (pieces : List (List Char)) : List Char :=
  List.intercalate sep pieces

/-- JS `String.prototype.includes(pat)`: substring containment. -/
def jsIncludes (s pat : List Char) : Bool :=
  decide (pat <:+: s)

/-- First index at which `pat` occurs in the remaining list, offset by `i`. -/
def jsIndexOfAux (pat : List Char) : List Char → Nat → Option Nat
  | [], i => if pat = [] then some i else none
  | c :: rest, i =>
    if pat.isPrefixOf (c :: rest) then some i else jsIndexOfAux pat rest (i + 1)

/-- JS `String.prototype.indexOf(pat)`, with `none` standing for no
occurrence (the JS value `-1` is reconstructed at the use site). -/
def jsIndexOf (s pat : List Char) : Option Nat :=
  jsIndexOfAux pat s 0

/-- JS `String.prototype.slice(0, e)`: a negative end counts from the end
of the string (clamped at `0`), a non-negative end is clamped at the
length. -/
def jsSliceToEnd (s : List Char) (e : Int) : List Char :=
  let n : Int := s.length
  let stop : Int := if e < 0 then max (n + e) 0 else min e n
  s.take stop.toNat

/-- JS `String.prototype.repeat(n)`. -/
def jsRepeat (s : List Char) (n : Nat) : List Char :=
  (List.replicate n s).flatten

/-! ## Data model: wollok-ts environments as node forests

A `WData` record is the observable data of one wollok-ts `Node`: `id`
stands for JS object identity, `fqn` is `fullyQualifiedName`, and the
kind distinguishes `Test` nodes (with their `isOnly` flag), container
`Entity` nodes (package / describe / program), and all other nodes. -/

inductive WKind where
  | test (isOnly : Bool)
  | entity
  | other
deriving DecidableEq, Repr

structure WData where
  id : Nat
  name : String
  fqn : String
  kind : WKind
deriving DecidableEq, Repr

/-- A wollok-ts node together with its children (the AST is a tree). -/
inductive WTree where
  | node (data : WData) (children : List WTree)
deriving Repr

def WTree.data : WTree → WData
  | .node d _ => d

def WTree.children : WTree → List WTree
  | .node _ c => c

mutual
/-- Data of a node and all of its transitive descendants, in preorder:
`[node, ...node.descendants]` as produced by wollok-ts. -/
def preorder : WTree → List WData
  | .node d cs => d :: preorderList cs
/-- Preorder data of a forest. -/
def preorderList : List WTree → List WData
  | [] => []
  | t :: ts => preorder t ++ preorderList ts
end

/-- wollok-ts `node.descendants` (strict: the node itself is excluded). -/
def descendantsData (t : WTree) : List WData :=
  preorderList t.children

mutual
/-- All subtrees of a tree (itself included), in preorder. -/
def subtrees : WTree → List WTree
  | .node d cs => .node d cs :: subtreesForest cs
/-- All subtrees of every tree in a forest. -/
def subtreesForest : List WTree → List WTree
  | [] => []
  | t :: ts => subtrees t ++ subtreesForest ts
end

/-- The wollok-ts `Environment`: its member packages.  The environment
node itself is neither a `Test` nor a reported `Entity`, so only the
members matter for the test command. -/
structure WEnvironment where
  members : List WTree

/-- wollok-ts `environment.descendants` (data view). -/
def envDescendants (env : WEnvironment) : List WData :=
  preorderList env.members

/-- All node subtrees of the environment. -/
def envSubtrees (env : WEnvironment) : List WTree :=
  subtreesForest env.members

def isTestData (d : WData) : Bool :=
  match d.kind with
  | .test _ => true
  | _ => false

def isOnlyData (d : WData) : Bool :=
  match d.kind with
  | .test o => o
  | _ => false

/-- `environment.descendants.filter(is(Test))` from `getTarget`. -/
def envTests (env : WEnvironment) : List WData :=
  (envDescendants env).filter isTestData

/-! ## `src/commands/test.ts`: options, validation, target selection -/

/-- The `Options` record of `src/commands/test.ts`; optional string fields
are `Option String`, with `none` for JS `undefined`. -/
structure TOptions where
  file : Option String
  describe : Option String
  test : Option String
  project : String
  skipValidations : Bool

/-- JS truthiness of an optional string: `undefined` and the empty string
are falsy. -/
def optTruthy : Option String → Bool
  | none => false
  | some s => !s.toList.isEmpty

/-- `validateParameters` from `src/commands/test.ts:20-22`:
`if (filter && (file || describe || test)) throw new Error(...)`. -/
def validateParameters (filter : Option String) (o : TOptions) : Except String Unit :=
  if optTruthy filter && (optTruthy o.file || optTruthy o.describe || optTruthy o.test) then
    .error "You should either use filter by full name or file/describe/test."
  else
    .ok ()

def validateParametersThrows (filter : Option String) (o : TOptions) : Bool :=
  match validateParameters filter o with
  | .error _ => true
  | .ok _ => false

/-- `sanitize` on a bare string: `value.replaceAll(String.fromCharCode 34, ...)`
removes every double-quote character. -/
def sanitizeStr (s : String) : String :=
  String.mk (replaceAllL ['"'] [] s.toList)

/-- `sanitize` from `src/commands/test.ts:24-26`:
`value?.replaceAll(...)` is `undefined` exactly on `undefined`. -/
def sanitize (value : Option String) : Option String :=
  value.map sanitizeStr

/-- `[file, describe, test].filter(Boolean).join(".")` from
`src/commands/test.ts:30`. -/
def fqnByOptionalParameters (o : TOptions) : String :=
  String.intercalate "." (([o.file, o.describe, o.test].filterMap id).filter
    (fun s => !s.toList.isEmpty))

/-- The local `filterTest` of `getTarget`
(`sanitize(filter) ?? fqnByOptionalParameters ?? ...`): the trailing
default never fires because the join always produces a string. -/
def filterTest (filter : Option String) (o : TOptions) : String :=
  (sanitize filter).getD (fqnByOptionalParameters o)

/-- The local `testMatches` of `getTarget`:
a falsy (empty) filter matches everything, otherwise the sanitized
fully-qualified name must contain the filter as a substring. -/
def testMatches (filterV : String) (t : WData) : Bool :=
  filterV.toList.isEmpty || jsIncludes (sanitizeStr t.fqn).toList filterV.toList

/-- `getTarget` from `src/commands/test.ts:29-36`. -/
def getTarget (env : WEnvironment) (filter : Option String) (o : TOptions) : List WData :=
  let filterV := filterTest filter o
  let possibleTargets := (envDescendants env).filter isTestData
  match possibleTargets.find? (fun t => isOnlyData t) with
  | some onlyTarget => [onlyTarget]
  | none => possibleTargets.filter (testMatches filterV)

/-- `tabulationForNode` from `src/commands/test.ts:38-40`:
two spaces repeated (number of dot-separated segments of the
fully-qualified name minus one) times. -/
def tabulationForNode (fqn : String) : String :=
  String.mk (jsRepeat "  ".toList ((splitOnChar '.' fqn.toList).length - 1))

-- quick sanity checks that the definitions evaluate
example : sanitizeStr "\"Foo\"" = "Foo" := by decide
example : fqnByOptionalParameters ⟨some "a", some "b", none, "p", false⟩ = "a.b" := by decide
example : tabulationForNode "a.b.c" = "    " := by decide
example : tabulationForNode "a" = "" := by decide
example : testMatches "Foo" ⟨0, "bar", "Foo.bar", .test false⟩ = true := by decide
example : testMatches "foo" ⟨0, "bar", "Foo.bar", .test false⟩ = false := by decide

/-! ## The test command pipeline (`default` in `src/commands/test.ts:42-110`)

Test execution itself is external (`interpreter.fork().exec(node)`); it is
modelled by an oracle `execOk : Nat → Bool` telling, per node id, whether
the forked execution returns normally (`true`) or throws (`false`). -/

/-- One line of console output produced during the traversal. -/
inductive REvent where
  | testPass (id : Nat)
  | testFail (id : Nat)
  | header (id : Nat)
deriving DecidableEq, Repr

/-- Accumulated run state: the `successes` counter, the `failures` list
(the thrown error is opaque, so only the test is recorded), and the
emitted report lines in order. -/
structure RunAcc where
  successes : Nat
  failures : List WData
  events : List REvent
deriving Repr

/-- One step of `environment.forEach(node => match(node)(...))`:
the `when(Test)` arm executes a targeted test inside a fork and catches
its error; the `when(Entity)` arm prints a header when some target is
among the node's descendants; the `when(Node)` arm does nothing. -/
def visitNode (targets : List WData) (execOk : Nat → Bool) (t : WTree) (acc : RunAcc) : RunAcc :=
  match t.data.kind with
  | .test _ =>
    if t.data ∈ targets then
      if execOk t.data.id then
        { acc with successes := acc.successes + 1, events := acc.events ++ [.testPass t.data.id] }
      else
        { acc with failures := acc.failures ++ [t.data], events := acc.events ++ [.testFail t.data.id] }
    else acc
  | .entity =>
    if targets.any (fun target => decide (target ∈ descendantsData t)) then
      { acc with events := acc.events ++ [.header t.data.id] }
    else acc
  | .other => acc

mutual
/-- Traversal of one node and its subtree, in preorder. -/
def runTree (targets : List WData) (execOk : Nat → Bool) : WTree → RunAcc → RunAcc
  | .node d cs, acc => runTrees targets execOk cs (visitNode targets execOk (.node d cs) acc)
/-- Traversal of a forest. -/
def runTrees (targets : List WData) (execOk : Nat → Bool) : List WTree → RunAcc → RunAcc
  | [], acc => acc
  | t :: ts, acc => runTrees targets execOk ts (runTree targets execOk t acc)
end

/-- The whole `environment.forEach` loop of the test command, started from
the empty state (`failures = []`, `successes = 0`). -/
def runEnvironment (env : WEnvironment) (targets : List WData) (execOk : Nat → Bool) : RunAcc :=
  runTrees targets execOk env.members ⟨0, [], []⟩

/-- Outcome of one invocation of the test command: the process exit code,
whether an environment was ever built, and the final run state when the
traversal was reached. -/
structure CmdResult where
  exitCode : Nat
  envBuilt : Bool
  run : Option RunAcc

/-- The test command `default` function (`src/commands/test.ts:42-110`).
External effects are inputs: `buildResult` is the outcome of
`buildEnvironmentForProject` (`none` when it throws), and
`validationHasErrors` tells whether `validate` reports an error-level
problem (`validateEnvironment` throws when validations are not skipped
and an error-level problem exists).  Any throw before the traversal is
caught by the surrounding `try`/`catch`, which calls `handleError` and
exits with code 1; after a completed traversal the process exits with
code 2 when there is at least one failure and 0 otherwise. -/
def runTestCommand (filter : Option String) (o : TOptions) (buildResult : Option WEnvironment)
    (validationHasErrors : Bool) (execOk : Nat → Bool) : CmdResult :=
  match validateParameters filter o with
  | .error _ => ⟨1, false, none⟩
  | .ok _ =>
    match buildResult with
    | none => ⟨1, false, none⟩
    | some env =>
      if !o.skipValidations && validationHasErrors then ⟨1, true, none⟩
      else
        let targets := getTarget env filter o
        let acc := runEnvironment env targets execOk
        ⟨if acc.failures.length > 0 then 2 else 0, true, some acc⟩

/-! ## `failureDescription` (`src/utils.ts:214-225`)

The marker `WOLLOK_EXTRA_STACK_TRACE_HEADER` is a string constant exported
by the external wollok-ts library; it is kept as a parameter `header`.
A JS `Error` is modelled by its optional rendered `stack`. -/

structure JsError where
  stack : Option (List Char)

/-- The local `indexOfTsStack`: `e?.stack?.indexOf(header)`.
`none` models JS `undefined` (no error or no stack); when a stack exists,
`indexOf` yields the first occurrence index or `-1`. -/
def indexOfTsStack (header : List Char) (e : Option JsError) : Option Int :=
  (e.bind (fun err => err.stack)).map
    (fun s =>
      match jsIndexOf s header with
      | some n => (n : Int)
      | none => -1)

/-- The local `fullStack`: `e?.stack?.slice(0, indexOfTsStack ?? -1) ?? ''`.
Note that the `?? -1` default only fires when the stack itself is absent
(in which case the outer `?? ''` already yields the empty string): when
the marker is simply not found, `indexOf` has returned `-1` rather than
`undefined`, and `slice(0, -1)` drops the final character. -/
def fullStackOf (header : List Char) (e : Option JsError) : List Char :=
  match e.bind (fun err => err.stack) with
  | none => []
  | some s =>
    jsSliceToEnd s
      (match indexOfTsStack header e with
       | some i => i
       | none => -1)

/-- The local `stack`: whitespace normalisation (tabs and runs of five or
four spaces become two spaces) followed by re-indenting every line by two
spaces (`split(newline).join(newline + two spaces)`). -/
def trimmedStack (header : List Char) (e : Option JsError) : List Char :=
  joinWith ('\n' :: ' ' :: ' ' :: [])
    (splitOnChar '\n'
      (replaceAllL ("    ".toList) ("  ".toList)
        (replaceAllL ("     ".toList) ("  ".toList)
          (replaceAllL ['\t'] ("  ".toList) (fullStackOf header e)))))

/-- chalk `bold`: ANSI SGR codes 1 / 22. -/
def chalkBold (s : List Char) : List Char :=
  "\x1b[1m".toList ++ s ++ "\x1b[22m".toList

/-- chalk `red`: ANSI SGR codes 31 / 39. -/
def chalkRed (s : List Char) : List Char :=
  "\x1b[31m".toList ++ s ++ "\x1b[39m".toList

/-- `failureDescription` from `src/utils.ts:214-225`. -/
def failureDescription (header : List Char) (description : List Char) (e : Option JsError) : List Char :=
  let stack := trimmedStack header e
  chalkRed (chalkBold ['✗'] ++ [' '] ++ description ++
    (if stack.isEmpty then [] else ('\n' :: ' ' :: ' ' :: []) ++ stack))

-- sanity: marker present → truncation at its first occurrence
example :
    fullStackOf "MARK".toList (some ⟨some "abcMARKdef".toList⟩) = "abc".toList := by decide
-- sanity: marker absent → the last character is dropped (slice(0, -1))
example :
    fullStackOf "MARK".toList (some ⟨some "abcdef".toList⟩) = "abcde".toList := by decide

/-! ## Helper lemmas -/

theorem validateParametersThrows_eq (f : Option String) (o : TOptions) :
    validateParametersThrows f o
      = (optTruthy f && (optTruthy o.file || optTruthy o.describe || optTruthy o.test)) := by
  unfold validateParametersThrows validateParameters
  by_cases h : (optTruthy f && (optTruthy o.file || optTruthy o.describe || optTruthy o.test)) = true
  · simp [h]
  · simp only [Bool.not_eq_true] at h
    simp [h]

theorem splitOnChar_ne_nil (sep : Char) (l : List Char) : splitOnChar sep l ≠ [] := by
  cases l with
  | nil => simp [splitOnChar]
  | cons c rest =>
    simp only [splitOnChar]
    by_cases h : c = sep
    · simp [h]
    · simp only [if_neg h]
      cases splitOnChar sep rest <;> simp

theorem splitOnChar_length (sep : Char) (l : List Char) :
    (splitOnChar sep l).length = l.count sep + 1 := by
  induction l with
  | nil => simp [splitOnChar]
  | cons c rest ih =>
    simp only [splitOnChar]
    by_cases h : c = sep
    · simp [h, List.count_cons, ih]
    · cases hr : splitOnChar sep rest with
      | nil => exact absurd hr (splitOnChar_ne_nil sep rest)
      | cons g gs =>
        have hc : (c == sep) = false := by simp [h]
        simp only [if_neg h, List.count_cons, hc, if_false]
        rw [hr] at ih
        simp at ih ⊢
        omega

theorem jsRepeat_length (s : List Char) (n : Nat) : (jsRepeat s n).length = n * s.length := by
  simp [jsRepeat, List.length_flatten, List.map_replicate, List.sum_replicate, smul_eq_mul]

/-! ## Claims -/

/-- Claim C5: when the free-text filter is absent, the effective filter
used for matching is the composite built by joining the truthy values of
`options.file`, `options.describe`, `options.test` with a dot, in that
order; when the free-text filter is present, it (sanitized) is used
instead of the composite.  The concrete conjunct checks the spec scenario
`file = a`, `describe = b`, `test` unset. -/
theorem c5_effective_filter :
    (∀ o : TOptions, filterTest none o = fqnByOptionalParameters o)
    ∧ (∀ (s : String) (o : TOptions), filterTest (some s) o = sanitizeStr s)
    ∧ fqnByOptionalParameters ⟨some "a", some "b", none, "proj", false⟩ = "a.b"
    ∧ filterTest none ⟨some "a", some "b", none, "proj", false⟩ = "a.b" := by
  refine ⟨fun o => rfl, fun s o => rfl, by decide, by decide⟩

/-- Claim C8: the indentation prefix of a reported node is two spaces per
nesting level, the level being the number of dot-separated segments of the
fully-qualified name minus one (equivalently the number of dots); a
root-level name (no dots) yields an empty prefix. -/
theorem c8_tabulation :
    (∀ fqn : String,
      (tabulationForNode fqn).length = 2 * ((splitOnChar '.' fqn.toList).length - 1)
      ∧ (splitOnChar '.' fqn.toList).length = fqn.toList.count '.' + 1)
    ∧ tabulationForNode "game" = ""
    ∧ tabulationForNode "a.b.c" = "    " := by
  refine ⟨fun fqn => ⟨?_, splitOnChar_length '.' fqn.toList⟩, by decide, by decide⟩
  show (jsRepeat "  ".toList ((splitOnChar '.' fqn.toList).length - 1)).length = _
  rw [jsRepeat_length]
  simp [Nat.mul_comm]

/-- Claim C4: `validateParameters` raises the configuration error exactly
when the free-text filter is truthy (present and non-empty) and at least
one of `options.file`, `options.describe`, `options.test` is truthy; when
it raises, the command exits with code 1 without building an environment
or running any test. -/
theorem c4_validate_parameters :
    ∀ (f : Option String) (o : TOptions),
      (validateParametersThrows f o = true ↔
        (optTruthy f = true
          ∧ (optTruthy o.file = true ∨ optTruthy o.describe = true ∨ optTruthy o.test = true)))
      ∧ (validateParametersThrows f o = true →
          ∀ (b : Option WEnvironment) (v : Bool) (ex : Nat → Bool),
            (runTestCommand f o b v ex).exitCode = 1
            ∧ (runTestCommand f o b v ex).envBuilt = false
            ∧ (runTestCommand f o b v ex).run = none) := by
  intro f o
  constructor
  · rw [validateParametersThrows_eq]
    simp [Bool.and_eq_true, Bool.or_eq_true, or_assoc]
  · intro h b v ex
    unfold validateParametersThrows at h
    unfold runTestCommand
    cases hv : validateParameters f o with
    | error msg => simp
    | ok u => rw [hv] at h; simp at h

/-- Witness for C4 at a concrete input: filter and file both set. -/
theorem c4_validate_parameters_witness :
    (runTestCommand (some "x") ⟨some "y", none, none, "p", false⟩ none false (fun _ => true)).exitCode = 1
    ∧ (runTestCommand (some "x") ⟨some "y", none, none, "p", false⟩ none false (fun _ => true)).envBuilt = false
    ∧ (runTestCommand (some "x") ⟨some "y", none, none, "p", false⟩ none false (fun _ => true)).run = none :=
  (c4_validate_parameters (some "x") ⟨some "y", none, none, "p", false⟩).2 (by decide)
    none false (fun _ => true)

/-- The disjunction of abort causes of the test command: a configuration
error from `validateParameters`, a failed environment build, or an
error-level validation problem that is not skipped. -/
def abortsRun (f : Option String) (o : TOptions) (b : Option WEnvironment) (v : Bool) : Bool :=
  validateParametersThrows f o || b.isNone || (!o.skipValidations && v)

/-- On a configuration error the command exits 1 before anything else. -/
theorem runTestCommand_config_error (f : Option String) (o : TOptions)
    (b : Option WEnvironment) (v : Bool) (ex : Nat → Bool)
    (h : validateParametersThrows f o = true) :
    runTestCommand f o b v ex = ⟨1, false, none⟩ := by
  unfold validateParametersThrows at h
  unfold runTestCommand
  cases hv : validateParameters f o with
  | error msg => simp
  | ok u => rw [hv] at h; simp at h

/-- On a failed environment build the command exits 1. -/
theorem runTestCommand_build_fail (f : Option String) (o : TOptions) (v : Bool) (ex : Nat → Bool)
    (h : validateParametersThrows f o = false) :
    runTestCommand f o none v ex = ⟨1, false, none⟩ := by
  unfold validateParametersThrows at h
  cases hv : validateParameters f o with
  | error msg => rw [hv] at h; simp at h
  | ok u => unfold runTestCommand; rw [hv]

/-- On an error-level validation problem (not skipped) the command exits 1
after having built the environment. -/
theorem runTestCommand_validation_error (f : Option String) (o : TOptions) (env : WEnvironment)
    (v : Bool) (ex : Nat → Bool)
    (h : validateParametersThrows f o = false) (hval : (!o.skipValidations && v) = true) :
    runTestCommand f o (some env) v ex = ⟨1, true, none⟩ := by
  unfold validateParametersThrows at h
  cases hv : validateParameters f o with
  | error msg => rw [hv] at h; simp at h
  | ok u => unfold runTestCommand; rw [hv]; simp [hval]

/-- When no abort happens the command runs the traversal and exits with
2 or 0 according to the recorded failures. -/
theorem runTestCommand_completed (f : Option String) (o : TOptions) (env : WEnvironment)
    (v : Bool) (ex : Nat → Bool)
    (h : validateParametersThrows f o = false) (hval : (!o.skipValidations && v) = false) :
    runTestCommand f o (some env) v ex =
      ⟨if (runEnvironment env (getTarget env f o) ex).failures.length > 0 then 2 else 0, true,
        some (runEnvironment env (getTarget env f o) ex)⟩ := by
  unfold validateParametersThrows at h
  cases hv : validateParameters f o with
  | error msg => rw [hv] at h; simp at h
  | ok u => unfold runTestCommand; rw [hv]; simp [hval]

/-- Claim C7: the test command exits with code 1 exactly on an abort
(configuration / build / validation error), with code 0 exactly when the
run completed and no test failed, and with code 2 exactly when the run
completed and at least one test failed. -/
theorem c7_exit_codes :
    ∀ (f : Option String) (o : TOptions) (env : WEnvironment) (v : Bool) (ex : Nat → Bool),
      (∀ b : Option WEnvironment,
        (runTestCommand f o b v ex).exitCode = 1 ↔ abortsRun f o b v = true)
      ∧ ((runTestCommand f o (some env) v ex).exitCode = 0 ↔
          (abortsRun f o (some env) v = false
            ∧ (runEnvironment env (getTarget env f o) ex).failures.length = 0))
      ∧ ((runTestCommand f o (some env) v ex).exitCode = 2 ↔
          (abortsRun f o (some env) v = false
            ∧ (runEnvironment env (getTarget env f o) ex).failures.length ≠ 0)) := by
  intro f o env v ex
  refine ⟨fun b => ?_, ?_, ?_⟩
  · cases hth : validateParametersThrows f o with
    | true => rw [runTestCommand_config_error f o b v ex hth]; simp [abortsRun, hth]
    | false =>
      cases b with
      | none => rw [runTestCommand_build_fail f o v ex hth]; simp [abortsRun, hth]
      | some env' =>
        cases hval : (!o.skipValidations && v) with
        | true =>
          rw [runTestCommand_validation_error f o env' v ex hth hval]
          simp [abortsRun, hth, hval]
        | false =>
          rw [runTestCommand_completed f o env' v ex hth hval]
          by_cases hlen : (runEnvironment env' (getTarget env' f o) ex).failures.length > 0 <;>
            simp [abortsRun, hth, hval, hlen]
  · cases hth : validateParametersThrows f o with
    | true =>
      rw [runTestCommand_config_error f o (some env) v ex hth]
      simp [abortsRun, hth]
    | false =>
      cases hval : (!o.skipValidations && v) with
      | true =>
        rw [runTestCommand_validation_error f o env v ex hth hval]
        simp [abortsRun, hth, hval]
      | false =>
        rw [runTestCommand_completed f o env v ex hth hval]
        by_cases hlen : (runEnvironment env (getTarget env f o) ex).failures.length > 0
        · simp [abortsRun, hth, hval, hlen]
          exact fun hnil => by simp [hnil] at hlen
        · simp [abortsRun, hth, hval, hlen]
          exact List.length_eq_zero.mp (by omega)
  · cases hth : validateParametersThrows f o with
    | true =>
      rw [runTestCommand_config_error f o (some env) v ex hth]
      simp [abortsRun, hth]
    | false =>
      cases hval : (!o.skipValidations && v) with
      | true =>
        rw [runTestCommand_validation_error f o env v ex hth hval]
        simp [abortsRun, hth, hval]
      | false =>
        rw [runTestCommand_completed f o env v ex hth hval]
        by_cases hlen : (runEnvironment env (getTarget env f o) ex).failures.length > 0
        · simp [abortsRun, hth, hval, hlen]
          exact fun hnil => by simp [hnil] at hlen
        · simp [abortsRun, hth, hval, hlen]
          exact List.length_eq_zero.mp (by omega)

/-- Zeta-reduced equation for `getTarget` in terms of `envTests`. -/
theorem getTarget_eq (env : WEnvironment) (f : Option String) (o : TOptions) :
    getTarget env f o =
      match (envTests env).find? (fun u => isOnlyData u) with
      | some onlyTarget => [onlyTarget]
      | none => (envTests env).filter (testMatches (filterTest f o)) := rfl

/-- Claim C1: when the environment contains a unique only-flagged test,
`getTarget` returns exactly the singleton of that test, for every filter
and every file/describe/test options record. -/
theorem c1_only_overrides :
    ∀ (env : WEnvironment) (f : Option String) (o : TOptions) (t : WData),
      t ∈ envTests env → isOnlyData t = true →
      (∀ u ∈ envTests env, isOnlyData u = true → u = t) →
      getTarget env f o = [t] := by
  intro env f o t ht honly huniq
  rw [getTarget_eq]
  cases hf : (envTests env).find? (fun u => isOnlyData u) with
  | none =>
    exact absurd honly (List.find?_eq_none.mp hf t ht)
  | some u =>
    have hu : u ∈ envTests env := List.mem_of_find?_eq_some hf
    have honlyu : isOnlyData u = true := List.find?_some hf
    rw [huniq u hu honlyu]

/-- Concrete environment for the C1 witness: a package with a plain test
and an only-flagged test. -/
def envW1 : WEnvironment :=
  ⟨[.node ⟨0, "p", "p", .entity⟩
      [.node ⟨1, "t1", "p.t1", .test false⟩ [],
       .node ⟨2, "t2", "p.t2", .test true⟩ []]]⟩

/-- Witness for C1: the filter and the describe option are both ignored in
favour of the only-flagged test. -/
theorem c1_only_overrides_witness :
    getTarget envW1 (some "zzz") ⟨none, some "nope", none, "p", false⟩
      = [⟨2, "t2", "p.t2", .test true⟩] :=
  c1_only_overrides envW1 (some "zzz") ⟨none, some "nope", none, "p", false⟩
    ⟨2, "t2", "p.t2", .test true⟩ (by decide) (by decide) (by decide)

/-- Claim C10: when several tests are only-flagged, `getTarget` returns
the singleton of the first only-flagged test in the environment's
descendants traversal order, ignoring every later only-flagged test and
any filter or options. -/
theorem c10_first_only_wins :
    ∀ (env : WEnvironment) (f : Option String) (o : TOptions) (l1 l2 : List WData) (t : WData),
      envTests env = l1 ++ t :: l2 →
      (∀ u ∈ l1, isOnlyData u = false) →
      isOnlyData t = true →
      getTarget env f o = [t] := by
  intro env f o l1 l2 t hsplit hnone honly
  rw [getTarget_eq, hsplit, List.find?_append]
  have h1 : l1.find? (fun u => isOnlyData u) = none := by
    rw [List.find?_eq_none]
    intro u hu
    simp [hnone u hu]
  have h2 : (t :: l2).find? (fun u => isOnlyData u) = some t := by
    rw [List.find?_cons]
    simp [honly]
  rw [h1, h2]
  rfl

/-- Concrete environment for the C10 witness: two only-flagged tests. -/
def envW10 : WEnvironment :=
  ⟨[.node ⟨0, "p", "p", .entity⟩
      [.node ⟨1, "tA", "p.tA", .test true⟩ [],
       .node ⟨2, "tB", "p.tB", .test true⟩ []]]⟩

/-- Witness for C10: with two only-flagged tests and a filter naming the
second, the first only-flagged test is returned. -/
theorem c10_first_only_wins_witness :
    getTarget envW10 (some "p.tB") ⟨none, none, none, "p", false⟩
      = [⟨1, "tA", "p.tA", .test true⟩] :=
  c10_first_only_wins envW10 (some "p.tB") ⟨none, none, none, "p", false⟩
    [] [⟨2, "tB", "p.tB", .test true⟩] ⟨1, "tA", "p.tA", .test true⟩
    (by decide) (by decide) (by decide)

/-- Environment for the C3 counterexample: a single, not only-flagged
test whose fully-qualified name is `a`. -/
def envC3 : WEnvironment := ⟨[.node ⟨0, "a", "a", .test false⟩ []]⟩

/-- Options for the C3 counterexample: `file` carries literal quote
characters, as a shell may pass them. -/
def optsC3 : TOptions := ⟨some "\"a\"", none, none, "p", false⟩

/-- Counterexample to claim C3 as stated: with no only-flagged test, a
quote-carrying `file` option and no free-text filter, the computed
(composite) filter is used unsanitized.  The unique test's sanitized
fully-qualified name does contain the sanitized computed filter as a
substring, so the claim predicts the test is selected, yet `getTarget`
returns the empty list: the composite built from the options is never
sanitized in the code. -/
theorem c3_counterexample :
    envTests envC3 = [⟨0, "a", "a", .test false⟩]
    ∧ isOnlyData ⟨0, "a", "a", .test false⟩ = false
    ∧ filterTest none optsC3 = "\"a\""
    ∧ sanitizeStr "\"a\"" = "a"
    ∧ jsIncludes (sanitizeStr "a").toList (sanitizeStr "\"a\"").toList = true
    ∧ getTarget envC3 none optsC3 = [] := by
  refine ⟨by decide, by decide, by decide, by decide, by decide, by decide⟩

/-- Claim C3 (amended): with no only-flagged test, the selected set is
exactly the tests whose sanitized fully-qualified name contains the
effective filter as a substring, where the effective filter is the
sanitized free-text filter when one is given and otherwise the composite
built from the options, used without sanitization; the empty effective
filter selects every test, and matching is on exact character sequences
(case-sensitive). -/
theorem c3_filter_matching :
    ∀ (env : WEnvironment) (f : Option String) (o : TOptions) (t : WData),
      (∀ u ∈ envTests env, isOnlyData u = false) →
      (t ∈ getTarget env f o ↔
        t ∈ envTests env ∧
          ((filterTest f o).toList = []
            ∨ (filterTest f o).toList <:+: (sanitizeStr t.fqn).toList)) := by
  intro env f o t hnone
  rw [getTarget_eq]
  have hf : (envTests env).find? (fun u => isOnlyData u) = none := by
    rw [List.find?_eq_none]
    intro u hu
    simp [hnone u hu]
  rw [hf]
  rw [List.mem_filter]
  unfold testMatches jsIncludes
  rw [Bool.or_eq_true, List.isEmpty_iff, decide_eq_true_iff]

/-- Environment for the C3 witness: two tests under one package. -/
def envW3 : WEnvironment :=
  ⟨[.node ⟨0, "p", "p", .entity⟩
      [.node ⟨1, "T1", "p.T1", .test false⟩ [],
       .node ⟨2, "T2", "p.T2", .test false⟩ []]]⟩

/-- Witness for the amended C3 at a concrete input: a quoted free-text
filter matches through sanitization. -/
theorem c3_filter_matching_witness :
    (⟨1, "T1", "p.T1", .test false⟩ : WData) ∈ getTarget envW3 (some "\"T1\"") ⟨none, none, none, "p", false⟩ ↔
      (⟨1, "T1", "p.T1", .test false⟩ : WData) ∈ envTests envW3 ∧
        ((filterTest (some "\"T1\"") ⟨none, none, none, "p", false⟩).toList = []
          ∨ (filterTest (some "\"T1\"") ⟨none, none, none, "p", false⟩).toList
              <:+: (sanitizeStr "p.T1").toList) :=
  c3_filter_matching envW3 (some "\"T1\"") ⟨none, none, none, "p", false⟩
    ⟨1, "T1", "p.T1", .test false⟩ (by decide)

/-- The marker string that the external wollok-ts library prepends to its
own implementation frames (the value of its exported
`WOLLOK_EXTRA_STACK_TRACE_HEADER` constant). -/
def wollokExtraStackTraceHeader : List Char := "Derived from TypeScript stack".toList

/-- The stack of the C2 failing input: a rendered error stack in which
the wollok marker does not occur. -/
def stackC2 : List Char := "Error: boom\n  at f (a.ts:1:1)".toList

/-- Claim C2, evaluated at the failing input: when the marker does occur,
the stack is truncated at its first occurrence as claimed; but when the
marker is absent, `indexOf` has returned `-1` (not `undefined`, so the
`?? -1` default never fires) and `slice(0, -1)` drops the final character
of the stack instead of keeping it unmodified. -/
theorem c2_marker_absent_drops_char :
    fullStackOf wollokExtraStackTraceHeader
        (some ⟨some ("abc".toList ++ wollokExtraStackTraceHeader ++ "def".toList)⟩)
      = "abc".toList
    ∧ jsIndexOf stackC2 wollokExtraStackTraceHeader = none
    ∧ fullStackOf wollokExtraStackTraceHeader (some ⟨some stackC2⟩) = stackC2.dropLast
    ∧ fullStackOf wollokExtraStackTraceHeader (some ⟨some stackC2⟩) ≠ stackC2 := by
  refine ⟨by decide, by decide, by decide, by decide⟩

/-- A node's data is that of an executed test: a `Test` node that belongs
to the selected targets. -/
def isExecuted (tg : List WData) (d : WData) : Bool :=
  isTestData d && decide (d ∈ tg)

/-- One visit contributes exactly one success or one recorded failure
when the node is a targeted test, and nothing otherwise. -/
theorem visitNode_count (tg : List WData) (ex : Nat → Bool) (t : WTree) (acc : RunAcc) :
    (visitNode tg ex t acc).successes + (visitNode tg ex t acc).failures.length
      = acc.successes + acc.failures.length
        + (if isExecuted tg t.data = true then 1 else 0) := by
  unfold visitNode isExecuted isTestData
  cases hk : t.data.kind with
  | test b =>
    by_cases hmem : t.data ∈ tg
    · by_cases hex : ex t.data.id = true
      · simp [hmem, hex]
        omega
      · simp [hmem, hex]
        omega
    · simp [hmem]
  | entity =>
    by_cases hany : tg.any (fun target => decide (target ∈ descendantsData t)) = true
    · simp [hany]
    · simp only [Bool.not_eq_true] at hany
      simp [hany]
  | other => simp

mutual
/-- Traversing a subtree adds one success-or-failure per targeted test in
its preorder. -/
theorem runTree_count (tg : List WData) (ex : Nat → Bool) (t : WTree) (acc : RunAcc) :
    (runTree tg ex t acc).successes + (runTree tg ex t acc).failures.length
      = acc.successes + acc.failures.length + (preorder t).countP (isExecuted tg) := by
  cases t with
  | node d cs =>
    show (runTrees tg ex cs (visitNode tg ex (.node d cs) acc)).successes
        + (runTrees tg ex cs (visitNode tg ex (.node d cs) acc)).failures.length
      = acc.successes + acc.failures.length + (d :: preorderList cs).countP (isExecuted tg)
    rw [runTrees_count tg ex cs (visitNode tg ex (.node d cs) acc)]
    rw [visitNode_count tg ex (.node d cs) acc]
    rw [List.countP_cons]
    have : WTree.data (.node d cs) = d := rfl
    rw [this]
    omega
/-- Traversing a forest adds one success-or-failure per targeted test in
its preorder. -/
theorem runTrees_count (tg : List WData) (ex : Nat → Bool) (ts : List WTree) (acc : RunAcc) :
    (runTrees tg ex ts acc).successes + (runTrees tg ex ts acc).failures.length
      = acc.successes + acc.failures.length + (preorderList ts).countP (isExecuted tg) := by
  cases ts with
  | nil =>
    show acc.successes + acc.failures.length
      = acc.successes + acc.failures.length + (preorderList []).countP (isExecuted tg)
    simp [preorderList]
  | cons t ts' =>
    show (runTrees tg ex ts' (runTree tg ex t acc)).successes
        + (runTrees tg ex ts' (runTree tg ex t acc)).failures.length
      = acc.successes + acc.failures.length
        + (preorder t ++ preorderList ts').countP (isExecuted tg)
    rw [runTrees_count tg ex ts' (runTree tg ex t acc)]
    rw [runTree_count tg ex t acc]
    rw [List.countP_append]
    omega
end

/-- Claim C6: a throwing test is recorded as a failure without aborting
the traversal, so after the run the success count plus the number of
recorded failures equals the number of selected targets (node identities
are distinct, as JS object identity guarantees). -/
theorem c6_success_plus_failures :
    ∀ (env : WEnvironment) (f : Option String) (o : TOptions) (ex : Nat → Bool),
      (envDescendants env).Nodup →
      (runEnvironment env (getTarget env f o) ex).successes
        + (runEnvironment env (getTarget env f o) ex).failures.length
        = (getTarget env f o).length := by
  intro env f o ex hnd
  unfold runEnvironment
  rw [runTrees_count]
  show 0 + 0 + (envDescendants env).countP (isExecuted (getTarget env f o))
    = (getTarget env f o).length
  simp only [Nat.zero_add]
  rw [getTarget_eq]
  cases hf : (envTests env).find? (fun u => isOnlyData u) with
  | some u =>
    have hu_tests : u ∈ envTests env := List.mem_of_find?_eq_some hf
    have hu_test : isTestData u = true := (List.mem_filter.mp hu_tests).2
    have hu_mem : u ∈ envDescendants env := (List.mem_filter.mp hu_tests).1
    have hcong : (envDescendants env).countP (isExecuted [u])
        = (envDescendants env).countP (fun d => d == u) := by
      apply List.countP_congr
      intro d _
      unfold isExecuted
      simp only [Bool.and_eq_true, decide_eq_true_iff, List.mem_singleton, beq_iff_eq]
      constructor
      · rintro ⟨-, hdu⟩; exact hdu
      · rintro hdu; exact ⟨hdu ▸ hu_test, hdu⟩
    rw [hcong]
    have hcount : (envDescendants env).countP (fun d => d == u) = (envDescendants env).count u := rfl
    rw [hcount, List.count_eq_one_of_mem hnd hu_mem]
    rfl
  | none =>
    have hcong : (envDescendants env).countP
          (isExecuted ((envTests env).filter (testMatches (filterTest f o))))
        = (envDescendants env).countP
          (fun d => testMatches (filterTest f o) d && isTestData d) := by
      apply List.countP_congr
      intro d hd
      unfold isExecuted
      simp only [Bool.and_eq_true, decide_eq_true_iff, List.mem_filter]
      unfold envTests
      simp only [List.mem_filter]
      constructor
      · rintro ⟨htest, ⟨-, -⟩, hmatch⟩; exact ⟨hmatch, htest⟩
      · rintro ⟨hmatch, htest⟩; exact ⟨htest, ⟨⟨hd, htest⟩, hmatch⟩⟩
    rw [hcong]
    rw [List.countP_eq_length_filter]
    unfold envTests
    rw [List.filter_filter]

/-- Environment for the C6 witness: a package with two tests. -/
def envW6 : WEnvironment :=
  ⟨[.node ⟨0, "p", "p", .entity⟩
      [.node ⟨1, "T1", "p.T1", .test false⟩ [],
       .node ⟨2, "T2", "p.T2", .test false⟩ []]]⟩

/-- Execution oracle for the C6 witness: test 1 passes, test 2 throws. -/
def exW6 : Nat → Bool := fun i => i == 1

/-- Witness for C6: with one passing and one throwing test, successes
plus recorded failures equal the two selected targets. -/
theorem c6_success_plus_failures_witness :
    (runEnvironment envW6 (getTarget envW6 none ⟨none, none, none, "p", false⟩) exW6).successes
      + (runEnvironment envW6 (getTarget envW6 none ⟨none, none, none, "p", false⟩) exW6).failures.length
      = (getTarget envW6 none ⟨none, none, none, "p", false⟩).length :=
  c6_success_plus_failures envW6 none ⟨none, none, none, "p", false⟩ exW6 (by decide)

/-! ## Event attribution for Claim C9 -/

/-- The single report line a visit of one node can emit: a pass/fail line
for a targeted test, a header line for a container entity with a selected
descendant, and nothing otherwise. -/
def eventOfNode (tg : List WData) (ex : Nat → Bool) (t : WTree) : Option REvent :=
  match t.data.kind with
  | .test _ =>
    if t.data ∈ tg then
      some (if ex t.data.id then .testPass t.data.id else .testFail t.data.id)
    else none
  | .entity =>
    if tg.any (fun target => decide (target ∈ descendantsData t)) then
      some (.header t.data.id)
    else none
  | .other => none

/-- The id carried by a report line. -/
def eventId : REvent → Nat
  | .testPass i => i
  | .testFail i => i
  | .header i => i

mutual
/-- All report lines of a subtree's traversal, in order. -/
def eventsOfTree (tg : List WData) (ex : Nat → Bool) : WTree → List REvent
  | .node d cs => (eventOfNode tg ex (.node d cs)).toList ++ eventsOfForest tg ex cs
/-- All report lines of a forest's traversal. -/
def eventsOfForest (tg : List WData) (ex : Nat → Bool) : List WTree → List REvent
  | [] => []
  | t :: ts => eventsOfTree tg ex t ++ eventsOfForest tg ex ts
end

/-- A visit appends exactly the node's own report line (if any). -/
theorem visitNode_events (tg : List WData) (ex : Nat → Bool) (t : WTree) (acc : RunAcc) :
    (visitNode tg ex t acc).events = acc.events ++ (eventOfNode tg ex t).toList := by
  unfold visitNode eventOfNode
  cases hk : t.data.kind with
  | test b =>
    by_cases hmem : t.data ∈ tg
    · by_cases hex : ex t.data.id = true
      · simp [hmem, hex]
      · simp [hmem, hex]
    · simp [hmem]
  | entity =>
    by_cases hany : tg.any (fun target => decide (target ∈ descendantsData t)) = true
    · simp [hany]
    · simp only [Bool.not_eq_true] at hany
      simp [hany]
  | other => simp

mutual
/-- A subtree traversal appends exactly its report lines. -/
theorem runTree_events (tg : List WData) (ex : Nat → Bool) (t : WTree) (acc : RunAcc) :
    (runTree tg ex t acc).events = acc.events ++ eventsOfTree tg ex t := by
  cases t with
  | node d cs =>
    show (runTrees tg ex cs (visitNode tg ex (.node d cs) acc)).events
      = acc.events ++ eventsOfTree tg ex (.node d cs)
    rw [runTrees_events tg ex cs (visitNode tg ex (.node d cs) acc)]
    rw [visitNode_events tg ex (.node d cs) acc]
    show acc.events ++ (eventOfNode tg ex (.node d cs)).toList ++ eventsOfForest tg ex cs
      = acc.events ++ ((eventOfNode tg ex (.node d cs)).toList ++ eventsOfForest tg ex cs)
    rw [List.append_assoc]
/-- A forest traversal appends exactly its report lines. -/
theorem runTrees_events (tg : List WData) (ex : Nat → Bool) (ts : List WTree) (acc : RunAcc) :
    (runTrees tg ex ts acc).events = acc.events ++ eventsOfForest tg ex ts := by
  cases ts with
  | nil =>
    show acc.events = acc.events ++ eventsOfForest tg ex []
    simp [eventsOfForest]
  | cons t ts' =>
    show (runTrees tg ex ts' (runTree tg ex t acc)).events
      = acc.events ++ eventsOfForest tg ex (t :: ts')
    rw [runTrees_events tg ex ts' (runTree tg ex t acc)]
    rw [runTree_events tg ex t acc]
    show acc.events ++ eventsOfTree tg ex t ++ eventsOfForest tg ex ts'
      = acc.events ++ (eventsOfTree tg ex t ++ eventsOfForest tg ex ts')
    rw [List.append_assoc]
end

mutual
/-- A report line of a subtree comes from exactly one of its nodes. -/
theorem mem_eventsOfTree (tg : List WData) (ex : Nat → Bool) (t : WTree) (ev : REvent) :
    ev ∈ eventsOfTree tg ex t ↔ ∃ m ∈ subtrees t, eventOfNode tg ex m = some ev := by
  cases t with
  | node d cs =>
    show ev ∈ (eventOfNode tg ex (.node d cs)).toList ++ eventsOfForest tg ex cs ↔ _
    rw [List.mem_append]
    rw [mem_eventsOfForest tg ex cs ev]
    show _ ↔ ∃ m ∈ WTree.node d cs :: subtreesForest cs, eventOfNode tg ex m = some ev
    constructor
    · rintro (hroot | ⟨m, hm, hev⟩)
      · refine ⟨.node d cs, List.mem_cons_self _ _, ?_⟩
        cases hopt : eventOfNode tg ex (.node d cs) with
        | none => rw [hopt] at hroot; simp at hroot
        | some e => rw [hopt] at hroot; simp at hroot; rw [hroot]
      · exact ⟨m, List.mem_cons_of_mem _ hm, hev⟩
    · rintro ⟨m, hm, hev⟩
      rcases List.mem_cons.mp hm with hr | hforest
      · left; rw [hr] at hev; rw [hev]; simp
      · right; exact ⟨m, hforest, hev⟩
/-- A report line of a forest comes from exactly one of its nodes. -/
theorem mem_eventsOfForest (tg : List WData) (ex : Nat → Bool) (ts : List WTree) (ev : REvent) :
    ev ∈ eventsOfForest tg ex ts ↔ ∃ m ∈ subtreesForest ts, eventOfNode tg ex m = some ev := by
  cases ts with
  | nil => show ev ∈ ([] : List REvent) ↔ ∃ m ∈ ([] : List WTree), _; simp
  | cons t ts' =>
    show ev ∈ eventsOfTree tg ex t ++ eventsOfForest tg ex ts' ↔
      ∃ m ∈ subtrees t ++ subtreesForest ts', eventOfNode tg ex m = some ev
    rw [List.mem_append]
    rw [mem_eventsOfTree tg ex t ev, mem_eventsOfForest tg ex ts' ev]
    constructor
    · rintro (⟨m, hm, hev⟩ | ⟨m, hm, hev⟩)
      · exact ⟨m, List.mem_append_left _ hm, hev⟩
      · exact ⟨m, List.mem_append_right _ hm, hev⟩
    · rintro ⟨m, hm, hev⟩
      rcases List.mem_append.mp hm with h | h
      · exact Or.inl ⟨m, h, hev⟩
      · exact Or.inr ⟨m, h, hev⟩
end

/-- A node's report line carries that node's id. -/
theorem eventOfNode_id (tg : List WData) (ex : Nat → Bool) (m : WTree) (ev : REvent)
    (h : eventOfNode tg ex m = some ev) : eventId ev = m.data.id := by
  unfold eventOfNode at h
  cases hk : m.data.kind with
  | test b =>
    rw [hk] at h
    by_cases hmem : m.data ∈ tg
    · rw [if_pos hmem] at h
      by_cases hex : ex m.data.id = true
      · simp [hex] at h; rw [← h]; rfl
      · simp [hex] at h; rw [← h]; rfl
    · rw [if_neg hmem] at h; simp at h
  | entity =>
    rw [hk] at h
    by_cases hany : tg.any (fun target => decide (target ∈ descendantsData m)) = true
    · rw [if_pos hany] at h; simp at h; rw [← h]; rfl
    · rw [if_neg hany] at h; simp at h
  | other => rw [hk] at h; simp at h

mutual
/-- A subtree's root data occurs in the tree's preorder. -/
theorem subtrees_data_mem (t : WTree) (m : WTree) (h : m ∈ subtrees t) :
    m.data ∈ preorder t := by
  cases t with
  | node d cs =>
    rcases List.mem_cons.mp h with hr | hforest
    · rw [hr]; exact List.mem_cons_self _ _
    · exact List.mem_cons_of_mem _ (subtreesForest_data_mem cs m hforest)
/-- A forest subtree's root data occurs in the forest's preorder. -/
theorem subtreesForest_data_mem (ts : List WTree) (m : WTree) (h : m ∈ subtreesForest ts) :
    m.data ∈ preorderList ts := by
  cases ts with
  | nil => simp [subtreesForest] at h
  | cons t ts' =>
    rcases List.mem_append.mp h with hl | hr
    · exact List.mem_append_left _ (subtrees_data_mem t m hl)
    · exact List.mem_append_right _ (subtreesForest_data_mem ts' m hr)
end

mutual
/-- When the node ids of a tree are pairwise distinct, a subtree is
determined by its root id. -/
theorem subtree_id_inj (t : WTree) (hnd : ((preorder t).map WData.id).Nodup)
    (m n : WTree) (hm : m ∈ subtrees t) (hn : n ∈ subtrees t)
    (hid : m.data.id = n.data.id) : m = n := by
  cases t with
  | node d cs =>
    rw [show preorder (.node d cs) = d :: preorderList cs from rfl, List.map_cons,
      List.nodup_cons] at hnd
    rcases List.mem_cons.mp hm with hmr | hmf
    · rcases List.mem_cons.mp hn with hnr | hnf
      · rw [hmr, hnr]
      · exfalso
        apply hnd.1
        rw [List.mem_map]
        refine ⟨n.data, subtreesForest_data_mem cs n hnf, ?_⟩
        rw [← hid, hmr]
        rfl
    · rcases List.mem_cons.mp hn with hnr | hnf
      · exfalso
        apply hnd.1
        rw [List.mem_map]
        refine ⟨m.data, subtreesForest_data_mem cs m hmf, ?_⟩
        rw [hid, hnr]
        rfl
      · exact subtree_id_inj_forest cs hnd.2 m n hmf hnf hid
/-- When the node ids of a forest are pairwise distinct, a subtree is
determined by its root id. -/
theorem subtree_id_inj_forest (ts : List WTree) (hnd : ((preorderList ts).map WData.id).Nodup)
    (m n : WTree) (hm : m ∈ subtreesForest ts) (hn : n ∈ subtreesForest ts)
    (hid : m.data.id = n.data.id) : m = n := by
  cases ts with
  | nil => simp [subtreesForest] at hm
  | cons t ts' =>
    rw [show preorderList (t :: ts') = preorder t ++ preorderList ts' from rfl,
      List.map_append, List.nodup_append] at hnd
    rcases List.mem_append.mp hm with hml | hmr
    · rcases List.mem_append.mp hn with hnl | hnr
      · exact subtree_id_inj t hnd.1 m n hml hnl hid
      · exfalso
        have h1 : m.data.id ∈ List.map WData.id (preorder t) :=
          List.mem_map.mpr ⟨m.data, subtrees_data_mem t m hml, rfl⟩
        have h2 : m.data.id ∈ List.map WData.id (preorderList ts') :=
          List.mem_map.mpr ⟨n.data, subtreesForest_data_mem ts' n hnr, hid.symm⟩
        exact List.disjoint_left.mp hnd.2.2 h1 h2
    · rcases List.mem_append.mp hn with hnl | hnr
      · exfalso
        have h1 : n.data.id ∈ List.map WData.id (preorder t) :=
          List.mem_map.mpr ⟨n.data, subtrees_data_mem t n hnl, rfl⟩
        have h2 : n.data.id ∈ List.map WData.id (preorderList ts') :=
          List.mem_map.mpr ⟨m.data, subtreesForest_data_mem ts' m hmr, hid⟩
        exact List.disjoint_left.mp hnd.2.2 h1 h2
      · exact subtree_id_inj_forest ts' hnd.2.1 m n hmr hnr hid
end

/-- Claim C9: during the single-pass traversal, a container entity node
gets a header line if and only if at least one selected target is among
its transitive descendants; nodes that are neither tests nor entities
emit no report line at all (node ids are distinct, as JS object identity
guarantees). -/
theorem c9_header_iff :
    ∀ (env : WEnvironment) (tg : List WData) (ex : Nat → Bool) (n : WTree),
      ((envDescendants env).map WData.id).Nodup →
      n ∈ envSubtrees env →
      ((REvent.header n.data.id ∈ (runEnvironment env tg ex).events ↔
          (n.data.kind = WKind.entity
            ∧ tg.any (fun target => decide (target ∈ descendantsData n)) = true))
        ∧ (n.data.kind = WKind.other →
            ∀ ev ∈ (runEnvironment env tg ex).events, eventId ev ≠ n.data.id)) := by
  intro env tg ex n hnd hmem
  have hnd' : ((preorderList env.members).map WData.id).Nodup := hnd
  have hmem' : n ∈ subtreesForest env.members := hmem
  have hev : (runEnvironment env tg ex).events = eventsOfForest tg ex env.members := by
    unfold runEnvironment
    rw [runTrees_events]
    rw [List.nil_append]
  constructor
  · rw [hev, mem_eventsOfForest]
    constructor
    · rintro ⟨m, hm, hevm⟩
      have hid : eventId (REvent.header n.data.id) = m.data.id :=
        eventOfNode_id tg ex m _ hevm
      have hid' : m.data.id = n.data.id := by
        rw [← hid]; rfl
      have hmn : m = n := subtree_id_inj_forest env.members hnd' m n hm hmem' hid'
      rw [hmn] at hevm
      unfold eventOfNode at hevm
      cases hk : n.data.kind with
      | test b =>
        rw [hk] at hevm
        by_cases hmem2 : n.data ∈ tg
        · rw [if_pos hmem2] at hevm
          by_cases hex : ex n.data.id = true
          · simp [hex] at hevm
          · simp [hex] at hevm
        · rw [if_neg hmem2] at hevm
          simp at hevm
      | entity =>
        rw [hk] at hevm
        by_cases hany : tg.any (fun target => decide (target ∈ descendantsData n)) = true
        · exact ⟨rfl, hany⟩
        · rw [if_neg hany] at hevm
          simp at hevm
      | other =>
        rw [hk] at hevm
        simp at hevm
    · rintro ⟨hkind, hcond⟩
      refine ⟨n, hmem', ?_⟩
      unfold eventOfNode
      rw [hkind, if_pos hcond]
  · intro hother ev hevmem hideq
    rw [hev, mem_eventsOfForest] at hevmem
    rcases hevmem with ⟨m, hm, hevm⟩
    have hid : eventId ev = m.data.id := eventOfNode_id tg ex m ev hevm
    have hmn : m = n := subtree_id_inj_forest env.members hnd' m n hm hmem'
      (by rw [← hid, hideq])
    rw [hmn] at hevm
    unfold eventOfNode at hevm
    rw [hother] at hevm
    simp at hevm

/-- Environment for the C9 witness: a describe-like entity containing a
test, next to an empty sibling entity. -/
def envW9 : WEnvironment :=
  ⟨[.node ⟨0, "p", "p", .entity⟩
      [.node ⟨1, "d", "p.d", .entity⟩ [.node ⟨2, "t", "p.d.t", .test false⟩ []],
       .node ⟨3, "q", "p.q", .entity⟩ []]]⟩

/-- The inner entity node of the C9 witness. -/
def nW9 : WTree := .node ⟨1, "d", "p.d", .entity⟩ [.node ⟨2, "t", "p.d.t", .test false⟩ []]

/-- Targets for the C9 witness: the single test of `envW9`. -/
def tgW9 : List WData := [⟨2, "t", "p.d.t", .test false⟩]

/-- Witness for C9 at a concrete input. -/
theorem c9_header_iff_witness :
    ((REvent.header nW9.data.id ∈ (runEnvironment envW9 tgW9 (fun _ => true)).events ↔
        (nW9.data.kind = WKind.entity
          ∧ tgW9.any (fun target => decide (target ∈ descendantsData nW9)) = true))
      ∧ (nW9.data.kind = WKind.other →
          ∀ ev ∈ (runEnvironment envW9 tgW9 (fun _ => true)).events,
            eventId ev ≠ nW9.data.id)) :=
  c9_header_iff envW9 tgW9 (fun _ => true) nW9 (by decide)
    (by simp [envSubtrees, subtreesForest, subtrees, envW9, nW9])
